import Mathlib

/-!
Verification development for the CUDA black-hole ray tracer
(`cuda-raytracer`: `include/black_hole_cuda.h`, `src/main.cpp`,
`src/opengl_interop.cpp`).

Shallow embedding conventions:
* C++ `float`/`double` scalars that take part in exact control-flow and
  configuration arithmetic are embedded as `ℚ`; scalars that flow through
  transcendental functions (`sin`, `cos`, `sqrt`, `tan`) are embedded as `ℝ`.
* The GPU kernel source (`cuda_kernels.cu`) is declared in the header but is
  not part of the repository snapshot; the per-ray classifier and the
  step-capped integration loop are modelled from the specification and are
  marked as such in their doc comments.
-/

namespace BlackHoleCuda

/-! ## Constants from include/black_hole_cuda.h (lines 17-20) -/

/-- Source constant `SAGA_RS = 1.269e10f` (line 17 of the header). -/
def SAGA_RS : ℚ := 12690000000

/-- Source constant `D_LAMBDA = 1e7f` (line 18 of the header). -/
def D_LAMBDA : ℚ := 10000000

/-- Source constant `ESCAPE_R = 1e30f` (line 19 of the header). -/
def ESCAPE_R : ℚ := 10 ^ 30

/-- Source constant `MAX_RAY_STEPS = 100000` (line 20 of the header). -/
def MAX_RAY_STEPS : ℕ := 100000

/-! ## Data model from the header -/

/-- `glm::vec3` with components embedded as rationals (used for the black-hole
center position, which the session sets to the exact value (0,0,0)). -/
structure Vec3q where
  x : ℚ
  y : ℚ
  z : ℚ
deriving DecidableEq

/-- `struct CudaRay` (header lines 23-28): Cartesian coordinates, spherical
coordinates, coordinate derivatives and the conserved quantities. -/
structure CudaRay where
  x : ℚ
  y : ℚ
  z : ℚ
  r : ℚ
  theta : ℚ
  phi : ℚ
  dr : ℚ
  dtheta : ℚ
  dphi : ℚ
  E : ℚ
  L : ℚ
deriving DecidableEq

/-- `struct AccretionDisk` (header lines 42-47). -/
structure AccretionDisk where
  innerRadius : ℚ
  outerRadius : ℚ
  thickness : ℚ
  temperature : ℚ
deriving DecidableEq

/-- `struct BlackHole` (header lines 50-54). -/
structure BlackHole where
  position : Vec3q
  mass : ℚ
  schwarzschildRadius : ℚ
deriving DecidableEq

/-! ## Session configuration (CudaRenderer constructor, main.cpp lines 284-294) -/

/-- The black hole configured in the `CudaRenderer` constructor
(main.cpp lines 286-288): center (0,0,0), mass `8.54e36f`,
Schwarzschild radius `SAGA_RS`. -/
def sessionBlackHole : BlackHole :=
  { position := ⟨0, 0, 0⟩
    mass := 854 * 10 ^ 34
    schwarzschildRadius := SAGA_RS }

/-- The accretion disk configured in the `CudaRenderer` constructor
(main.cpp lines 291-294): inner radius `SAGA_RS * 3.0f`, outer radius
`SAGA_RS * 20.0f`, thickness `SAGA_RS * 0.1f`, temperature `50000.0f`. -/
def sessionDisk : AccretionDisk :=
  { innerRadius := SAGA_RS * 3
    outerRadius := SAGA_RS * 20
    thickness := SAGA_RS * (1 / 10)
    temperature := 50000 }

/-! ## Ray state machine (spec sections 4.2-4.3; kernel source absent) -/

/-- The five states of the integration state machine of spec section 4.2. -/
inductive RayStatus where
  | active
  | escaped
  | captured
  | diskHit
  | stepLimitReached
deriving DecidableEq

/-- Modelled from the spec: the per-step termination classifier of spec
section 4.3 (the implementing kernel file `cuda_kernels.cu` is declared in the
header but absent from the repository snapshot).  Per the spec tie-break rule,
the disk-crossing test (radial band and distance to the equatorial plane
within the configured thickness) is checked before the capture and escape
thresholds; capture is `r` at or below the Schwarzschild radius, and escape is
`r` above `ESCAPE_R`. -/
def classify (disk : AccretionDisk) (bh : BlackHole) (ray : CudaRay) : RayStatus :=
  if disk.innerRadius ≤ ray.r ∧ ray.r ≤ disk.outerRadius ∧ |ray.y| ≤ disk.thickness then
    .diskHit
  else if ray.r ≤ bh.schwarzschildRadius then
    .captured
  else if ESCAPE_R < ray.r then
    .escaped
  else
    .active

/-- Modelled from the spec: the step-capped integration loop of spec
section 4.2 (kernel source absent).  The geodesic update itself is an
arbitrary state-update function `stepF`; the loop classifies the current
state, returns at the first terminal classification, and otherwise advances
the ray, for at most `fuel` iterations.  Returns the terminal status together
with the number of integration steps taken. -/
def integrateAux (stepF : CudaRay → CudaRay) (disk : AccretionDisk) (bh : BlackHole) :
    CudaRay → ℕ → ℕ → RayStatus × ℕ
  | _, used, 0 => (.stepLimitReached, used)
  | ray, used, fuel + 1 =>
    match classify disk bh ray with
    | .active => integrateAux stepF disk bh (stepF ray) (used + 1) fuel
    | s => (s, used)

/-- Modelled from the spec: a full integration run with the hard step cap
`MAX_RAY_STEPS` of the header (spec section 4.2, Active → StepLimitReached). -/
def integrate (stepF : CudaRay → CudaRay) (disk : AccretionDisk) (bh : BlackHole)
    (ray : CudaRay) : RayStatus × ℕ :=
  integrateAux stepF disk bh ray 0 MAX_RAY_STEPS

lemma integrateAux_ne_active (stepF : CudaRay → CudaRay) (disk : AccretionDisk)
    (bh : BlackHole) :
    ∀ fuel ray used, (integrateAux stepF disk bh ray used fuel).1 ≠ .active ∧
      (integrateAux stepF disk bh ray used fuel).2 ≤ used + fuel := by
  intro fuel
  induction fuel with
  | zero =>
    intro ray used
    simp [integrateAux]
  | succ n ih =>
    intro ray used
    cases h : classify disk bh ray with
    | active =>
      have h2 := ih (stepF ray) (used + 1)
      refine ⟨by simpa [integrateAux, h] using h2.1, ?_⟩
      have h3 := h2.2
      simp only [integrateAux, h]
      omega
    | escaped => exact ⟨by simp [integrateAux, h], by simp [integrateAux, h]⟩
    | captured => exact ⟨by simp [integrateAux, h], by simp [integrateAux, h]⟩
    | diskHit => exact ⟨by simp [integrateAux, h], by simp [integrateAux, h]⟩
    | stepLimitReached =>
      exact ⟨by simp [integrateAux, h], by simp [integrateAux, h]⟩

/-- C1: For every ray, the geodesic integration terminates in at most the
configured step cap of 100000 steps, ending in exactly one of the terminal
states Escaped, Captured, DiskHit or StepLimitReached (the last treated as
Escaped); no ray loops forever.  Stated for every geodesic step function,
every disk and black-hole configuration and every initial ray state: the
(total) integration function returns a non-Active terminal status after at
most `MAX_RAY_STEPS` integration steps. -/
theorem geodesic_integration_terminates (stepF : CudaRay → CudaRay)
    (disk : AccretionDisk) (bh : BlackHole) (ray : CudaRay) :
    ((integrate stepF disk bh ray).1 = .escaped ∨
      (integrate stepF disk bh ray).1 = .captured ∨
      (integrate stepF disk bh ray).1 = .diskHit ∨
      (integrate stepF disk bh ray).1 = .stepLimitReached) ∧
      (integrate stepF disk bh ray).2 ≤ MAX_RAY_STEPS := by
  have h := integrateAux_ne_active stepF disk bh MAX_RAY_STEPS ray 0
  refine ⟨?_, by simpa [integrate] using h.2⟩
  rcases hs : (integrate stepF disk bh ray).1 with _ | _ | _ | _ | _
  · exact absurd (by simpa [integrate] using hs) h.1
  · exact Or.inl rfl
  · exact Or.inr (Or.inl rfl)
  · exact Or.inr (Or.inr (Or.inl rfl))
  · exact Or.inr (Or.inr (Or.inr rfl))

/-- C4: with the session's configured disk and black hole, an Active ray is
classified Escaped exactly when its radial coordinate exceeds the escape
radius `ESCAPE_R = 1e30`; and the classification is final: integration run on
such a ray returns Escaped immediately, taking no further steps, for every
geodesic step function. -/
theorem escape_classification_iff (stepF : CudaRay → CudaRay) (ray : CudaRay) :
    (classify sessionDisk sessionBlackHole ray = .escaped ↔ ESCAPE_R < ray.r) ∧
      (ESCAPE_R < ray.r →
        integrate stepF sessionDisk sessionBlackHole ray = (.escaped, 0)) := by
  have houter : sessionDisk.outerRadius < ESCAPE_R := by
    norm_num [sessionDisk, SAGA_RS, ESCAPE_R]
  have hrs : sessionBlackHole.schwarzschildRadius < ESCAPE_R := by
    norm_num [sessionBlackHole, SAGA_RS, ESCAPE_R]
  have hiff : classify sessionDisk sessionBlackHole ray = .escaped ↔ ESCAPE_R < ray.r := by
    constructor
    · intro h
      simp only [classify] at h
      split at h
      · exact absurd h (by simp)
      · split at h
        · exact absurd h (by simp)
        · split at h
          · assumption
          · exact absurd h (by simp)
    · intro hr
      have h1 : ¬ (sessionDisk.innerRadius ≤ ray.r ∧ ray.r ≤ sessionDisk.outerRadius ∧
          |ray.y| ≤ sessionDisk.thickness) := by
        rintro ⟨-, h2, -⟩
        linarith
      have h2 : ¬ ray.r ≤ sessionBlackHole.schwarzschildRadius := by
        intro h2
        linarith
      simp [classify, h1, h2, hr]
  refine ⟨hiff, fun hr => ?_⟩
  have hcl := hiff.mpr hr
  simp [integrate, MAX_RAY_STEPS, integrateAux, hcl]

/-- Witness for C4 at a concrete ray with radial coordinate `1e31`. -/
theorem escape_classification_iff_witness :
    (classify sessionDisk sessionBlackHole
        ⟨0, 0, 0, 10 ^ 31, 0, 0, 0, 0, 0, 0, 0⟩ = .escaped ↔
      ESCAPE_R < (10 : ℚ) ^ 31) ∧
      (ESCAPE_R < (10 : ℚ) ^ 31 →
        integrate id sessionDisk sessionBlackHole
          ⟨0, 0, 0, 10 ^ 31, 0, 0, 0, 0, 0, 0, 0⟩ = (.escaped, 0)) :=
  escape_classification_iff id ⟨0, 0, 0, 10 ^ 31, 0, 0, 0, 0, 0, 0, 0⟩

/-! ## glm::vec3 through transcendental math (embedded over the reals) -/

/-- `glm::vec3` with real components, for the camera computation. -/
structure Vec3 where
  x : ℝ
  y : ℝ
  z : ℝ

/-- `glm::clamp` over the reals: `min(max(v, lo), hi)`. -/
noncomputable def clampR (v lo hi : ℝ) : ℝ := min (max v lo) hi

/-- `glm::clamp` over the rationals. -/
def clampQ (v lo hi : ℚ) : ℚ := min (max v lo) hi

/-! ## Camera-orbit controller (class CudaCameraController, main.cpp lines 8-122)

The per-instance constant fields `minRadius`, `maxRadius`, `orbitSpeed` and
`zoomSpeed` (main.cpp lines 12, 15, 16) are initialized in the class and never
assigned, so they are embedded as top-level constants.  The `static int
preset` local of `processKey` (main.cpp line 95) persists across calls, so it
is part of the controller state.  GLFW constants used by the source:
`GLFW_MOUSE_BUTTON_LEFT = 0`, `GLFW_PRESS = 1`, `GLFW_RELEASE = 0`,
`GLFW_KEY_P = 80`, `GLFW_KEY_R = 82`. -/

/-- Field initializer `minRadius = 1e10f` (main.cpp line 12). -/
def minRadius : ℚ := 10 ^ 10

/-- Field initializer `maxRadius = 1e12f` (main.cpp line 12). -/
def maxRadius : ℚ := 10 ^ 12

/-- Field initializer `orbitSpeed = 0.01f` (main.cpp line 15). -/
def orbitSpeed : ℚ := 1 / 100

/-- Field initializer `zoomSpeed = 25e9f` (main.cpp line 16). -/
def zoomSpeed : ℚ := 25 * 10 ^ 9

/-- Mutable state of `class CudaCameraController` (main.cpp lines 10-19).
Angles pass through `sin`/`cos` so they are embedded as reals; the orbit
radius and the cursor doubles only take part in exact arithmetic and
comparisons and are embedded as rationals. -/
structure CudaCameraController where
  target : Vec3
  radius : ℚ
  azimuth : ℝ
  elevation : ℝ
  dragging : Bool
  moving : Bool
  lastX : ℚ
  lastY : ℚ
  preset : ℕ

/-- The controller state produced by the field initializers of main.cpp
lines 10-19 (with `preset = 0`, the initial value of the static local). -/
noncomputable def initController : CudaCameraController :=
  { target := ⟨0, 0, 0⟩
    radius := 63419400000
    azimuth := 0
    elevation := Real.pi / 2
    dragging := false
    moving := false
    lastX := 0
    lastY := 0
    preset := 0 }

/-- `CudaCameraController::processMouseMove` (main.cpp lines 49-62). -/
noncomputable def CudaCameraController.processMouseMove (c : CudaCameraController)
    (x y : ℚ) : CudaCameraController :=
  if c.dragging = false then c
  else
    { c with
      azimuth := c.azimuth + ((x - c.lastX : ℚ) : ℝ) * (orbitSpeed : ℝ)
      elevation := clampR (c.elevation - ((y - c.lastY : ℚ) : ℝ) * (orbitSpeed : ℝ))
        0.01 (Real.pi - 0.01)
      lastX := x
      lastY := y
      moving := true }

/-- `CudaCameraController::processMouseButton` (main.cpp lines 64-75); the
cursor position that `glfwGetCursorPos` reports on a press is an input. -/
def CudaCameraController.processMouseButton (c : CudaCameraController)
    (button action : ℤ) (cursorX cursorY : ℚ) : CudaCameraController :=
  if button = 0 then
    if action = 1 then
      { c with dragging := true, lastX := cursorX, lastY := cursorY, moving := true }
    else if action = 0 then
      { c with dragging := false, moving := false }
    else c
  else c

/-- `CudaCameraController::processScroll` (main.cpp lines 77-81). -/
def CudaCameraController.processScroll (c : CudaCameraController)
    (xoffset yoffset : ℚ) : CudaCameraController :=
  { c with
    radius := clampQ (c.radius - yoffset * zoomSpeed) minRadius maxRadius
    moving := true }

/-- `CudaCameraController::processKey` (main.cpp lines 83-121): on a press,
key R resets the camera, key P advances the persistent preset counter modulo 3
and applies the selected preset, any other key changes no pose field; every
press sets the moving flag.  Non-press actions leave the state unchanged. -/
noncomputable def CudaCameraController.processKey (c : CudaCameraController)
    (key scancode action mods : ℤ) : CudaCameraController :=
  if action = 1 then
    let c2 :=
      if key = 82 then
        { c with radius := 63419400000, azimuth := 0, elevation := Real.pi / 2 }
      else if key = 80 then
        let p := (c.preset + 1) % 3
        if p = 0 then
          { c with
            preset := p
            radius := 63419400000
            azimuth := 0
            elevation := Real.pi / 2 }
        else if p = 1 then
          { c with
            preset := p
            radius := 80000000000
            azimuth := 0
            elevation := 0.3 }
        else
          { c with
            preset := p
            radius := 30000000000
            azimuth := Real.pi / 4
            elevation := Real.pi / 3 }
      else c
    { c2 with moving := true }
  else c

/-- One GLFW input event, as dispatched by the callbacks registered in
`CudaRenderer::initOpenGL` (main.cpp lines 166-184). -/
inductive Event where
  | mouseMove (x y : ℚ)
  | mouseButton (button action : ℤ) (cursorX cursorY : ℚ)
  | scroll (xoffset yoffset : ℚ)
  | key (key scancode action mods : ℤ)

/-- Dispatch of one event to the controller, as the GLFW callbacks do. -/
noncomputable def handleEvent (c : CudaCameraController) (e : Event) :
    CudaCameraController :=
  match e with
  | .mouseMove x y => c.processMouseMove x y
  | .mouseButton b a cx cy => c.processMouseButton b a cx cy
  | .scroll xo yo => c.processScroll xo yo
  | .key k s a m => c.processKey k s a m

/-- The controller state after a sequence of input events starting from the
initial state. -/
noncomputable def applyEvents (evs : List Event) : CudaCameraController :=
  evs.foldl handleEvent initController

lemma clampQ_mem (v lo hi : ℚ) (h : lo ≤ hi) :
    lo ≤ clampQ v lo hi ∧ clampQ v lo hi ≤ hi := by
  constructor
  · exact le_min (le_max_right v lo) h
  · exact min_le_right _ _

lemma handleEvent_radius_mem (c : CudaCameraController) (e : Event)
    (h1 : minRadius ≤ c.radius) (h2 : c.radius ≤ maxRadius) :
    minRadius ≤ (handleEvent c e).radius ∧ (handleEvent c e).radius ≤ maxRadius := by
  have hlohi : minRadius ≤ maxRadius := by norm_num [minRadius, maxRadius]
  cases e with
  | mouseMove x y =>
    simp only [handleEvent, CudaCameraController.processMouseMove]
    split <;> exact ⟨h1, h2⟩
  | mouseButton b a cx cy =>
    simp only [handleEvent, CudaCameraController.processMouseButton]
    split
    · split
      · exact ⟨h1, h2⟩
      · split
        · exact ⟨h1, h2⟩
        · exact ⟨h1, h2⟩
    · exact ⟨h1, h2⟩
  | scroll xo yo =>
    simp only [handleEvent, CudaCameraController.processScroll]
    exact clampQ_mem _ _ _ hlohi
  | key k s a m =>
    simp only [handleEvent, CudaCameraController.processKey]
    split
    · split
      · constructor <;> norm_num [minRadius, maxRadius]
      · split
        · split
          · constructor <;> norm_num [minRadius, maxRadius]
          · split
            · constructor <;> norm_num [minRadius, maxRadius]
            · constructor <;> norm_num [minRadius, maxRadius]
        · exact ⟨h1, h2⟩
    · exact ⟨h1, h2⟩

lemma foldl_handleEvent_radius_mem (evs : List Event) :
    ∀ c : CudaCameraController, minRadius ≤ c.radius → c.radius ≤ maxRadius →
      minRadius ≤ (evs.foldl handleEvent c).radius ∧
        (evs.foldl handleEvent c).radius ≤ maxRadius := by
  induction evs with
  | nil => intro c h1 h2; exact ⟨h1, h2⟩
  | cons e rest ih =>
    intro c h1 h2
    have h3 := handleEvent_radius_mem c e h1 h2
    exact ih (handleEvent c e) h3.1 h3.2

/-- C9: starting from the initial controller state (radius 6.34194e10), every
sequence of controller operations (mouse moves, mouse buttons, scroll zooms,
key presses including camera reset and preset cycling) leaves the orbit
radius within the interval [minRadius, maxRadius] = [1e10, 1e12]. -/
theorem radius_always_in_range (evs : List Event) :
    minRadius ≤ (applyEvents evs).radius ∧ (applyEvents evs).radius ≤ maxRadius := by
  have h0 : minRadius ≤ initController.radius ∧ initController.radius ≤ maxRadius := by
    constructor <;> norm_num [initController, minRadius, maxRadius]
  exact foldl_handleEvent_radius_mem evs initController h0.1 h0.2

/-- C10: when the controller is not dragging, `processMouseMove` is the
identity on the whole controller state, for every cursor position input. -/
theorem mouseMove_no_drag_identity (c : CudaCameraController) (x y : ℚ)
    (h : c.dragging = false) : c.processMouseMove x y = c := by
  simp [CudaCameraController.processMouseMove, h]

/-- Witness for C10 at the initial controller state (which is not dragging)
and a concrete cursor position. -/
theorem mouseMove_no_drag_identity_witness :
    initController.processMouseMove 5 7 = initController :=
  mouseMove_no_drag_identity initController 5 7 rfl

/-! ## Camera pose computation (CudaCameraController::getCamera, main.cpp 22-47) -/

/-- `glm::dot`. -/
def dot (a b : Vec3) : ℝ := a.x * b.x + a.y * b.y + a.z * b.z

/-- `glm::cross`. -/
def cross (a b : Vec3) : Vec3 :=
  ⟨a.y * b.z - a.z * b.y, a.z * b.x - a.x * b.z, a.x * b.y - a.y * b.x⟩

/-- Componentwise vector subtraction (`glm::vec3` operator-). -/
def vsub (a b : Vec3) : Vec3 := ⟨a.x - b.x, a.y - b.y, a.z - b.z⟩

/-- `glm::normalize`: division of each component by the Euclidean length. -/
noncomputable def normalize (v : Vec3) : Vec3 :=
  ⟨v.x / Real.sqrt (dot v v), v.y / Real.sqrt (dot v v), v.z / Real.sqrt (dot v v)⟩

/-- The world up vector of main.cpp line 35. -/
def worldUp : Vec3 := ⟨0, 1, 0⟩

/-- The orbit position of main.cpp lines 27-31:
`radius * (sin(el) cos(az), cos(el) / ... , sin(el) sin(az))`. -/
noncomputable def orbitPos (R el az : ℝ) : Vec3 :=
  ⟨R * Real.sin el * Real.cos az, R * Real.cos el, R * Real.sin el * Real.sin az⟩

/-- `struct CudaCamera` (header lines 31-39). -/
structure CudaCamera where
  position : Vec3
  right : Vec3
  up : Vec3
  forward : Vec3
  tanHalfFov : ℝ
  aspect : ℝ
  moving : Bool

/-- `CudaCameraController::getCamera` (main.cpp lines 22-47): clamp the
elevation, place the camera on the orbit sphere, build the basis from the
normalized target direction and the world up vector, and fill in aspect
ratio, half field-of-view tangent (`tan(radians(60) * 0.5)`) and the moving
flag. -/
noncomputable def CudaCameraController.getCamera (c : CudaCameraController)
    (width height : ℕ) : CudaCamera :=
  let clampedElevation := clampR c.elevation 0.01 (Real.pi - 0.01)
  let position := orbitPos (c.radius : ℝ) clampedElevation c.azimuth
  let forward := normalize (vsub c.target position)
  let right := normalize (cross forward worldUp)
  let up := normalize (cross right forward)
  { position := position
    right := right
    up := up
    forward := forward
    tanHalfFov := Real.tan (60 * Real.pi / 180 * 0.5)
    aspect := (width : ℝ) / (height : ℝ)
    moving := c.moving }

lemma dot_self_nonneg (v : Vec3) : 0 ≤ dot v v := by
  simp only [dot]
  nlinarith [mul_self_nonneg v.x, mul_self_nonneg v.y, mul_self_nonneg v.z]

lemma sqrt_dot_mul_self (v : Vec3) :
    Real.sqrt (dot v v) * Real.sqrt (dot v v) = dot v v :=
  Real.mul_self_sqrt (dot_self_nonneg v)

lemma dot_normalize_self (v : Vec3) (h : dot v v ≠ 0) :
    dot (normalize v) (normalize v) = 1 := by
  have hs := sqrt_dot_mul_self v
  have hnz : Real.sqrt (dot v v) ≠ 0 := by
    intro h0
    rw [h0, mul_zero] at hs
    exact h hs.symm
  have hexp : dot (normalize v) (normalize v) =
      dot v v / (Real.sqrt (dot v v) * Real.sqrt (dot v v)) := by
    simp only [normalize, dot]
    ring
  rw [hexp, hs, div_self h]

lemma dot_normalize_left (u v : Vec3) :
    dot (normalize u) v = dot u v / Real.sqrt (dot u u) := by
  simp only [normalize, dot]
  ring

lemma dot_cross_left (u v : Vec3) : dot (cross u v) u = 0 := by
  simp only [cross, dot]
  ring

lemma dot_cross_right (u v : Vec3) : dot (cross u v) v = 0 := by
  simp only [cross, dot]
  ring

lemma dot_cross_self (u v : Vec3) :
    dot (cross u v) (cross u v) = dot u u * dot v v - dot u v * dot u v := by
  simp only [cross, dot]
  ring

/-- The orthonormality of the basis built the way `getCamera` builds it, for
an arbitrary view vector `u` and reference up vector `v`, provided `u` is not
degenerate and the first cross product is not degenerate. -/
lemma camera_basis_orthonormal (u v : Vec3) (hu : dot u u ≠ 0)
    (hc : dot (cross (normalize u) v) (cross (normalize u) v) ≠ 0) :
    dot (normalize u) (normalize u) = 1 ∧
    dot (normalize (cross (normalize u) v)) (normalize (cross (normalize u) v)) = 1 ∧
    dot (normalize (cross (normalize (cross (normalize u) v)) (normalize u)))
      (normalize (cross (normalize (cross (normalize u) v)) (normalize u))) = 1 ∧
    dot (normalize (cross (normalize u) v)) (normalize u) = 0 ∧
    dot (normalize (cross (normalize (cross (normalize u) v)) (normalize u)))
      (normalize u) = 0 ∧
    dot (normalize (cross (normalize (cross (normalize u) v)) (normalize u)))
      (normalize (cross (normalize u) v)) = 0 := by
  have h1 : dot (normalize u) (normalize u) = 1 := dot_normalize_self u hu
  have h2 : dot (normalize (cross (normalize u) v))
      (normalize (cross (normalize u) v)) = 1 := dot_normalize_self _ hc
  have h3 : dot (normalize (cross (normalize u) v)) (normalize u) = 0 := by
    rw [dot_normalize_left, dot_cross_left, zero_div]
  have h4 : dot (cross (normalize (cross (normalize u) v)) (normalize u))
      (cross (normalize (cross (normalize u) v)) (normalize u)) = 1 := by
    rw [dot_cross_self, h2, h1, h3]
    ring
  have h4ne : dot (cross (normalize (cross (normalize u) v)) (normalize u))
      (cross (normalize (cross (normalize u) v)) (normalize u)) ≠ 0 := by
    rw [h4]
    norm_num
  have h5 := dot_normalize_self _ h4ne
  have h6 : dot (normalize (cross (normalize (cross (normalize u) v)) (normalize u)))
      (normalize u) = 0 := by
    rw [dot_normalize_left, dot_cross_right, zero_div]
  have h7 : dot (normalize (cross (normalize (cross (normalize u) v)) (normalize u)))
      (normalize (cross (normalize u) v)) = 0 := by
    rw [dot_normalize_left, dot_cross_left, zero_div]
  exact ⟨h1, h2, h5, h3, h6, h7⟩

lemma dot_negOrbit (R el az : ℝ) :
    dot (vsub ⟨0, 0, 0⟩ (orbitPos R el az)) (vsub ⟨0, 0, 0⟩ (orbitPos R el az)) =
      R ^ 2 := by
  simp only [vsub, orbitPos, dot]
  linear_combination (R ^ 2 * Real.sin el ^ 2) * Real.sin_sq_add_cos_sq az +
    R ^ 2 * Real.sin_sq_add_cos_sq el

lemma crossUp_dot_self (u : Vec3) :
    dot (cross (normalize u) worldUp) (cross (normalize u) worldUp) =
      (u.x * u.x + u.z * u.z) / (Real.sqrt (dot u u) * Real.sqrt (dot u u)) := by
  simp only [cross, normalize, dot, worldUp]
  ring

lemma crossUp_negOrbit (R el az : ℝ) (hR : R ≠ 0) :
    dot (cross (normalize (vsub ⟨0, 0, 0⟩ (orbitPos R el az))) worldUp)
      (cross (normalize (vsub ⟨0, 0, 0⟩ (orbitPos R el az))) worldUp) =
      Real.sin el ^ 2 := by
  rw [crossUp_dot_self, sqrt_dot_mul_self, dot_negOrbit]
  have hnum : (vsub ⟨0, 0, 0⟩ (orbitPos R el az)).x * (vsub ⟨0, 0, 0⟩ (orbitPos R el az)).x +
      (vsub ⟨0, 0, 0⟩ (orbitPos R el az)).z * (vsub ⟨0, 0, 0⟩ (orbitPos R el az)).z =
      R ^ 2 * Real.sin el ^ 2 := by
    simp only [vsub, orbitPos]
    linear_combination (R ^ 2 * Real.sin el ^ 2) * Real.sin_sq_add_cos_sq az
  rw [hnum]
  field_simp

lemma sin_clamped_pos (e : ℝ) :
    0 < Real.sin (clampR e 0.01 (Real.pi - 0.01)) := by
  have hpi := Real.pi_gt_three
  have hlo : (0.01 : ℝ) ≤ Real.pi - 0.01 := by linarith
  have h1 : (0.01 : ℝ) ≤ clampR e 0.01 (Real.pi - 0.01) := by
    simp only [clampR]
    exact le_min (le_max_right _ _) hlo
  have h2 : clampR e 0.01 (Real.pi - 0.01) ≤ Real.pi - 0.01 := by
    simp only [clampR]
    exact min_le_right _ _
  exact Real.sin_pos_of_pos_of_lt_pi (by linarith) (by linarith)

/-- C5: for every controller state whose target is the origin (as the
constructor sets it, never modified) and whose radius is nonzero, and every
positive image width and height, the camera pose returned by `getCamera` has
an orthonormal basis: right, up and forward are unit vectors over the reals
and pairwise orthogonal.  The elevation clamp to [0.01, π - 0.01] keeps the
forward direction away from the world up vector. -/
theorem getCamera_orthonormal (c : CudaCameraController) (width height : ℕ)
    (hw : 0 < width) (hh : 0 < height) (htarget : c.target = ⟨0, 0, 0⟩)
    (hradius : c.radius ≠ 0) :
    dot (c.getCamera width height).forward (c.getCamera width height).forward = 1 ∧
    dot (c.getCamera width height).right (c.getCamera width height).right = 1 ∧
    dot (c.getCamera width height).up (c.getCamera width height).up = 1 ∧
    dot (c.getCamera width height).right (c.getCamera width height).forward = 0 ∧
    dot (c.getCamera width height).up (c.getCamera width height).forward = 0 ∧
    dot (c.getCamera width height).up (c.getCamera width height).right = 0 := by
  have hR : ((c.radius : ℚ) : ℝ) ≠ 0 := by exact_mod_cast hradius
  have hsin := sin_clamped_pos c.elevation
  have hu : dot
      (vsub ⟨0, 0, 0⟩ (orbitPos (c.radius : ℝ)
        (clampR c.elevation 0.01 (Real.pi - 0.01)) c.azimuth))
      (vsub ⟨0, 0, 0⟩ (orbitPos (c.radius : ℝ)
        (clampR c.elevation 0.01 (Real.pi - 0.01)) c.azimuth)) ≠ 0 := by
    rw [dot_negOrbit]
    exact pow_ne_zero 2 hR
  have hc : dot
      (cross (normalize (vsub ⟨0, 0, 0⟩ (orbitPos (c.radius : ℝ)
        (clampR c.elevation 0.01 (Real.pi - 0.01)) c.azimuth))) worldUp)
      (cross (normalize (vsub ⟨0, 0, 0⟩ (orbitPos (c.radius : ℝ)
        (clampR c.elevation 0.01 (Real.pi - 0.01)) c.azimuth))) worldUp) ≠ 0 := by
    rw [crossUp_negOrbit _ _ _ hR]
    exact pow_ne_zero 2 (ne_of_gt hsin)
  have main := camera_basis_orthonormal _ worldUp hu hc
  simp only [CudaCameraController.getCamera, htarget]
  exact main

/-- Witness for C5 at the initial controller state and a 1200 x 900 image. -/
theorem getCamera_orthonormal_witness :
    dot (initController.getCamera 1200 900).forward
      (initController.getCamera 1200 900).forward = 1 ∧
    dot (initController.getCamera 1200 900).right
      (initController.getCamera 1200 900).right = 1 ∧
    dot (initController.getCamera 1200 900).up
      (initController.getCamera 1200 900).up = 1 ∧
    dot (initController.getCamera 1200 900).right
      (initController.getCamera 1200 900).forward = 0 ∧
    dot (initController.getCamera 1200 900).up
      (initController.getCamera 1200 900).forward = 0 ∧
    dot (initController.getCamera 1200 900).up
      (initController.getCamera 1200 900).right = 0 :=
  getCamera_orthonormal initController 1200 900 (by norm_num) (by norm_num) rfl
    (by norm_num [initController])

/-! ## Renderer session and render loop (class CudaRenderer, main.cpp 124-375) -/

/-- One launch of `launchPhotorealisticKernel` with the arguments the render
loop passes (main.cpp line 340): camera, disk, black hole, image size and the
animation time. -/
structure KernelCall where
  camera : CudaCamera
  disk : AccretionDisk
  blackHole : BlackHole
  width : ℕ
  height : ℕ
  time : ℚ

/-- The renderer state relevant to the rendering claims: image size, the two
parameter blocks and the camera controller (main.cpp lines 134-138). -/
structure CudaRenderer where
  width : ℕ
  height : ℕ
  disk : AccretionDisk
  blackHole : BlackHole
  cameraController : CudaCameraController

/-- The `CudaRenderer` constructor (main.cpp lines 284-306): stores the image
size and assigns the black-hole and accretion-disk parameter blocks once; the
camera controller starts from its field initializers. -/
noncomputable def mkRenderer (w h : ℕ) : CudaRenderer :=
  { width := w
    height := h
    disk := sessionDisk
    blackHole := sessionBlackHole
    cameraController := initController }

/-- The render loop of `CudaRenderer::run` (main.cpp lines 321-374), one list
entry per iteration: each frame is driven by the clock sample taken at line
333 and by the GLFW events delivered by `glfwPollEvents` at line 326.  The
loop dispatches the events to the camera controller, computes the animation
time as the clock sample minus the start sample (line 334), reads the camera
(line 337) and launches the kernel with the renderer's disk and black-hole
fields (line 340). -/
noncomputable def runAux (disk : AccretionDisk) (bh : BlackHole) (w h : ℕ)
    (start : ℚ) : CudaCameraController → List (ℚ × List Event) → List KernelCall
  | _, [] => []
  | ctrl, (t, evs) :: rest =>
    let ctrl2 := evs.foldl handleEvent ctrl
    { camera := ctrl2.getCamera w h
      disk := disk
      blackHole := bh
      width := w
      height := h
      time := t - start } :: runAux disk bh w h start ctrl2 rest

/-- `CudaRenderer::run` for a whole session: the per-frame kernel launches of
a run that performs the given frames. -/
noncomputable def run (r : CudaRenderer) (start : ℚ)
    (frames : List (ℚ × List Event)) : List KernelCall :=
  runAux r.disk r.blackHole r.width r.height start r.cameraController frames

lemma runAux_disk_map (disk : AccretionDisk) (bh : BlackHole) (w h : ℕ) (start : ℚ) :
    ∀ (frames : List (ℚ × List Event)) (ctrl : CudaCameraController),
      (runAux disk bh w h start ctrl frames).map KernelCall.disk =
        List.replicate frames.length disk := by
  intro frames
  induction frames with
  | nil => intro ctrl; simp [runAux]
  | cons f rest ih =>
    intro ctrl
    obtain ⟨t, evs⟩ := f
    simp [runAux, List.replicate_succ, ih]

lemma runAux_blackHole_map (disk : AccretionDisk) (bh : BlackHole) (w h : ℕ)
    (start : ℚ) :
    ∀ (frames : List (ℚ × List Event)) (ctrl : CudaCameraController),
      (runAux disk bh w h start ctrl frames).map KernelCall.blackHole =
        List.replicate frames.length bh := by
  intro frames
  induction frames with
  | nil => intro ctrl; simp [runAux]
  | cons f rest ih =>
    intro ctrl
    obtain ⟨t, evs⟩ := f
    simp [runAux, List.replicate_succ, ih]

lemma runAux_time_map (disk : AccretionDisk) (bh : BlackHole) (w h : ℕ)
    (start : ℚ) :
    ∀ (frames : List (ℚ × List Event)) (ctrl : CudaCameraController),
      (runAux disk bh w h start ctrl frames).map KernelCall.time =
        frames.map (fun p => p.1 - start) := by
  intro frames
  induction frames with
  | nil => intro ctrl; simp [runAux]
  | cons f rest ih =>
    intro ctrl
    obtain ⟨t, evs⟩ := f
    simp [runAux, ih]

/-- C6: the disk and black-hole parameter blocks are set once in the
`CudaRenderer` constructor and never modified: for every session and every
sequence of frames, every kernel launch of the run loop passes exactly the
disk and black hole assigned in the constructor. -/
theorem kernel_params_constant_across_frames (w h : ℕ) (start : ℚ)
    (frames : List (ℚ × List Event)) :
    (run (mkRenderer w h) start frames).map KernelCall.disk =
      List.replicate frames.length (mkRenderer w h).disk ∧
    (run (mkRenderer w h) start frames).map KernelCall.blackHole =
      List.replicate frames.length (mkRenderer w h).blackHole :=
  ⟨runAux_disk_map _ _ _ _ _ frames _, runAux_blackHole_map _ _ _ _ _ frames _⟩

lemma runAux_mem_params (disk : AccretionDisk) (bh : BlackHole) (w h : ℕ)
    (start : ℚ) :
    ∀ (frames : List (ℚ × List Event)) (ctrl : CudaCameraController)
      (kc : KernelCall), kc ∈ runAux disk bh w h start ctrl frames →
        kc.disk = disk ∧ kc.blackHole = bh := by
  intro frames
  induction frames with
  | nil =>
    intro ctrl kc hkc
    simp [runAux] at hkc
  | cons f rest ih =>
    intro ctrl kc hkc
    obtain ⟨t, evs⟩ := f
    simp only [runAux, List.mem_cons] at hkc
    rcases hkc with h | h
    · subst h
      exact ⟨rfl, rfl⟩
    · exact ih _ kc h

/-- C2: for every session that renders frames, the parameters in effect for
every rendered frame satisfy innerRadius < outerRadius and 0 < mass.  There
is no rejection path in the source: the only constructor hard-codes the
session parameters, and those hard-coded values are valid, so no session can
ever render with invalid parameters. -/
theorem session_config_valid_for_all_frames (w h : ℕ) (start : ℚ)
    (frames : List (ℚ × List Event)) :
    ((run (mkRenderer w h) start frames).all fun kc =>
      decide (kc.disk.innerRadius < kc.disk.outerRadius) &&
        decide (0 < kc.blackHole.mass)) = true := by
  rw [List.all_eq_true]
  intro kc hkc
  have h := runAux_mem_params _ _ _ _ _ frames _ kc hkc
  rw [h.1, h.2]
  norm_num [mkRenderer, sessionDisk, sessionBlackHole, SAGA_RS]

/-- C8: the animation time passed to the rendering kernel is monotone across
frames: if the host clock samples driving the loop are monotone, then the
time arguments of the successive kernel launches are monotone as well. -/
theorem kernel_time_monotone (w h : ℕ) (start : ℚ)
    (frames : List (ℚ × List Event))
    (hmono : (frames.map Prod.fst).Pairwise (· ≤ ·)) :
    ((run (mkRenderer w h) start frames).map KernelCall.time).Pairwise (· ≤ ·) := by
  rw [run, runAux_time_map]
  have hmap : frames.map (fun p => p.1 - start) =
      (frames.map Prod.fst).map (fun t => t - start) := by
    rw [List.map_map]
    rfl
  rw [hmap]
  exact hmono.map _ (fun a b hab => by simp only [sub_le_sub_iff_right]; exact hab)

/-- Witness for C8: a two-frame run with monotone clock samples 0 and 1. -/
theorem kernel_time_monotone_witness :
    ((run (mkRenderer 1200 900) 0 [(0, []), (1, [])]).map
      KernelCall.time).Pairwise (· ≤ ·) :=
  kernel_time_monotone 1200 900 0 [(0, []), (1, [])]
    (by norm_num [List.pairwise_cons])

/-! ## Schwarzschild radius versus 2GM/c^2 (claim about SAGA_RS and the mass) -/

/-- Modelled from the spec: the Newtonian gravitational constant
G = 6.6743e-11 (CODATA SI value); the spec derives the Schwarzschild radius
by r_s = 2GM/c^2, and neither constant appears in the repository snapshot
(they would live in the absent kernel source). -/
def G_grav : ℚ := 66743 / 10 ^ 15

/-- Modelled from the spec: the speed of light c = 299792458 (exact SI
value). -/
def c_light : ℚ := 299792458

/-- Modelled from the spec: the Schwarzschild radius r_s = 2GM/c^2 computed
from the session's configured mass 8.54e36. -/
def derivedSchwarzschildRadius : ℚ :=
  2 * G_grav * sessionBlackHole.mass / c_light ^ 2

/-- Counterexample for C3: the stored radius SAGA_RS = 1.269e10 does not
equal 2GM/c^2 for the configured mass 8.54e36 up to stored float precision:
the derived value is below SAGA_RS by more than one part in 4096 of itself
(relative error about 4.8e-4), many orders of magnitude beyond single-float
relative precision (about 1.2e-7). -/
theorem saga_rs_not_float_exact :
    derivedSchwarzschildRadius < SAGA_RS ∧
      derivedSchwarzschildRadius <
        4096 * (SAGA_RS - derivedSchwarzschildRadius) := by
  constructor <;>
    norm_num [derivedSchwarzschildRadius, G_grav, c_light, sessionBlackHole, SAGA_RS]

/-- C3 (amended): the stored radius SAGA_RS = 1.269e10 agrees with the
derived value 2GM/c^2 for the configured mass 8.54e36 to within 0.1%
(it matches the physical formula only to about three significant figures,
not to stored float precision). -/
theorem saga_rs_matches_formula_within_tenth_percent :
    derivedSchwarzschildRadius < SAGA_RS ∧
      1000 * (SAGA_RS - derivedSchwarzschildRadius) < derivedSchwarzschildRadius := by
  constructor <;>
    norm_num [derivedSchwarzschildRadius, G_grav, c_light, sessionBlackHole, SAGA_RS]

/-! ## Frame hand-off ordering (CudaRenderer::run body, main.cpp 325-363) -/

/-- The operations of one iteration of the render loop that matter for the
buffer hand-off, one constructor per source statement. -/
inductive GpuOp where
  | pollEvents
  | launchKernel
  | deviceSync
  | mapResource
  | copyToTexture
  | unmapResource
  | drawQuad
  | swapBuffers
deriving DecidableEq

/-- The body of one iteration of `CudaRenderer::run`, in source order:
poll events (line 326), launch the photorealistic kernel (line 340),
`cudaDeviceSynchronize` (line 341), map the CUDA resource (line 344), copy
the output buffer into the OpenGL texture (lines 350-352), unmap (line 354),
draw the fullscreen quad (lines 357-361), swap buffers (line 363). -/
def frameOps : List GpuOp :=
  [.pollEvents, .launchKernel, .deviceSync, .mapResource, .copyToTexture,
    .unmapResource, .drawQuad, .swapBuffers]

/-- The operation sequence of a run-loop execution of `n` frames. -/
def renderProgram (n : ℕ) : List GpuOp := (List.replicate n frameOps).flatten

/-- Executes an operation sequence over the one bit of device state the
hand-off claim needs: whether the frame output buffer is fully written.
`launchKernel` starts asynchronous kernel writes into the buffer, so the
buffer is no longer known fully written; `cudaDeviceSynchronize` returns only
once every pending kernel write has completed, so the buffer is fully written
afterwards; the copy into the OpenGL texture is the hand-off to the display
collaborator and observes the flag.  Returns true iff every hand-off in the
sequence observes a fully written buffer. -/
def handoffComplete : Bool → List GpuOp → Bool
  | _, [] => true
  | _, .launchKernel :: rest => handoffComplete false rest
  | _, .deviceSync :: rest => handoffComplete true rest
  | complete, .copyToTexture :: rest => complete && handoffComplete complete rest
  | complete, _ :: rest => handoffComplete complete rest

lemma handoffComplete_frame (b : Bool) (rest : List GpuOp) :
    handoffComplete b (frameOps ++ rest) = handoffComplete true rest := by
  simp [frameOps, handoffComplete]

/-- C7: in every run of the render loop, each frame's hand-off (the copy of
the output buffer into the OpenGL texture, followed by the buffer swap)
happens only after `cudaDeviceSynchronize` has returned for that frame's
kernel launch, i.e. the full output buffer is completely written before it is
handed to the display collaborator; no hand-off ever observes a partially
written frame, whatever the completeness state the run starts from. -/
theorem handoff_observes_complete_buffer (n : ℕ) (b : Bool) :
    handoffComplete b (renderProgram n) = true := by
  induction n generalizing b with
  | zero => rfl
  | succ m ih =>
    have hsplit : renderProgram (m + 1) = frameOps ++ renderProgram m := by
      simp [renderProgram, List.replicate_succ]
    rw [hsplit, handoffComplete_frame]
    exact ih true

end BlackHoleCuda
